import Mathlib

/-!
Verification of the open_clip model factory (src/open_clip/factory.py).

This file gives a shallow embedding of the factory module: the config
registry (`_rescan_model_configs`, `_natural_key`, `list_models`,
`add_model_config`), the checkpoint loader (`load_state_dict`) and the
model builder (`create_model`), and proves the specified properties
about these definitions.

Modelling conventions:
  - Python values that can appear in a json document or a torch
    checkpoint are modelled by the inductive type `PyVal`; tensors are
    opaque (identified by a natural number).
  - Python dicts are modelled as ordered association lists, matching
    the insertion-order semantics of Python 3.7+ dicts.  Assignment
    `d[k] = v` is `dictInsert` (overwrite in place, append when new);
    `k in d` / `d[k]` is `pyLookup`.
  - Fallible Python code (raising exceptions) is modelled with
    `Except String`; the string names the Python exception.
  - The filesystem is abstracted: a config source (a registered path)
    yields the list of candidate json files found there, each carrying
    its stem (base filename without extension) and the result of
    parsing it (`Except` models a json.load failure).
  - Strings are ASCII in all examples; Python str.lower is modelled on
    the ASCII range.
-/

namespace OpenClip

/-- Model of a Python value as found in json documents and torch
checkpoints.  Dicts are ordered association lists; tensors are opaque. -/
inductive PyVal where
  | obj : List (String × PyVal) → PyVal
  | arr : List PyVal → PyVal
  | str : String → PyVal
  | num : Int → PyVal
  | bool : Bool → PyVal
  | null : PyVal
  | tensor : Nat → PyVal

/-- Python dict lookup d[k] (first occurrence wins; Python dicts have
unique keys so the first occurrence is the only one). -/
def pyLookup (l : List (String × PyVal)) (k : String) : Option PyVal :=
  match l with
  | [] => none
  | (k', v) :: rest => if k' = k then some v else pyLookup rest k

/-- Python dict assignment d[k] = v: overwrite the first occurrence of k
in place, append a new entry when k is absent. -/
def dictInsert (k : String) (v : PyVal) : List (String × PyVal) → List (String × PyVal)
  | [] => [(k, v)]
  | (k', v') :: rest => if k' = k then (k, v) :: rest else (k', v') :: dictInsert k v rest

/-- Build a Python dict from a list of key-value pairs in order (the
semantics of a dict comprehension: later duplicate keys overwrite). -/
def pyDict (l : List (String × PyVal)) : List (String × PyVal) :=
  l.foldl (fun acc p => dictInsert p.1 p.2 acc) []

/-- Keys of a dict, in order. -/
def dictKeys (l : List (String × PyVal)) : List String := l.map Prod.fst

/-- Model of Python s.startswith(pre) on char lists. -/
def charPrefix : List Char → List Char → Bool
  | [], _ => true
  | _ :: _, [] => false
  | a :: as, b :: bs => a == b && charPrefix as bs

/-- Model of the Python substring test needle in hay on char lists. -/
def charInfix (needle : List Char) : List Char → Bool
  | [] => charPrefix needle []
  | c :: rest => charPrefix needle (c :: rest) || charInfix needle rest

/-- Model of Python k.startswith('module'). -/
def startsWithModule (k : String) : Bool :=
  charPrefix "module".toList k.toList

/-- Model of Python string slicing k[7:] (drop the first 7 characters). -/
def pyDrop7 (k : String) : String := String.mk (k.toList.drop 7)

/-- Model of the two steps
      if isinstance(checkpoint, dict) and 'state_dict' in checkpoint:
          state_dict = checkpoint['state_dict']
      else:
          state_dict = checkpoint
from load_state_dict in factory.py. -/
def sdOf (checkpoint : PyVal) : PyVal :=
  match checkpoint with
  | .obj fields =>
    match pyLookup fields "state_dict" with
    | some inner => inner
    | none => checkpoint
  | _ => checkpoint

/-- Embedding of load_state_dict from factory.py, applied to the value
that torch.load returned.  The first-key probe
next(iter(state_dict.items())) raises StopIteration on an empty dict and
AttributeError on a non-dict; the module-prefix strip is the dict
comprehension with k[7:]. -/
def load_state_dict (checkpoint : PyVal) : Except String (List (String × PyVal)) :=
  match sdOf checkpoint with
  | .obj fields =>
    match fields with
    | [] => .error "StopIteration"
    | (k, _) :: _ =>
      if startsWithModule k then
        .ok (pyDict (fields.map (fun p => (pyDrop7 p.1, p.2))))
      else
        .ok fields
  | _ => .error "AttributeError: no attribute items"

/-- Model of the Python membership test key in v, as used by
all(a in model_cfg for a in (...)).  For a dict it tests the keys, for
a string it is a substring test, for a list it compares elements for
equality; on any other value Python raises TypeError. -/
def pyIn (key : String) (v : PyVal) : Except String Bool :=
  match v with
  | .obj fields => .ok (fields.any (fun p => p.1 == key))
  | .str s => .ok (charInfix key.toList s.toList)
  | .arr xs => .ok (xs.any (fun x => match x with | .str s => s == key | _ => false))
  | _ => .error "TypeError: argument is not iterable"

/-- Model of
all(a in model_cfg for a in ('embed_dim', 'vision_cfg', 'text_cfg'))
from _rescan_model_configs / list_models; the generator short-circuits,
and a TypeError from the first membership test propagates. -/
def hasRequired (v : PyVal) : Except String Bool :=
  match pyIn "embed_dim" v with
  | .error e => .error e
  | .ok b1 =>
    if b1 then
      match pyIn "vision_cfg" v with
      | .error e => .error e
      | .ok b2 => if b2 then pyIn "text_cfg" v else .ok false
    else .ok false

/-- A candidate config file as a scan sees it: its stem (base filename
without the .json extension) and the outcome of json.load on it
(error = the file is unparsable). -/
structure ConfigFile where
  stem : String
  parse : Except String PyVal

/-- A registered config source (an entry of _MODEL_CONFIG_PATHS),
abstracted to the list of candidate .json files it yields: a single
file for a file path, the directory's files for a directory, nothing
for a path that is neither. -/
abbrev Source := List ConfigFile

/-- Process-wide state of the factory module: the built-in
model_configs directory (head of _MODEL_CONFIG_PATHS), the sources
appended by add_model_config, and the registry _MODEL_CONFIGS. -/
structure FactoryState where
  defaultDir : Source
  extraPaths : List Source
  configs : List (String × PyVal)

/-- The full list _MODEL_CONFIG_PATHS of the state. -/
def sources (st : FactoryState) : List Source :=
  st.defaultDir :: st.extraPaths

/-- Model of Python str.lower on one character (ASCII range). -/
def pyLowerChar (c : Char) : Char :=
  if 65 ≤ c.toNat ∧ c.toNat ≤ 90 then Char.ofNat (c.toNat + 32) else c

/-- Model of Python str.lower (ASCII range). -/
def pyLower (s : String) : String := String.mk (s.toList.map pyLowerChar)

/-- Maximal runs of characters, each tagged with whether it is a run of
decimal digits; adjacent runs always carry opposite tags. -/
def digitRuns : List Char → List (Bool × List Char)
  | [] => []
  | c :: cs =>
    match digitRuns cs with
    | [] => [(c.isDigit, [c])]
    | (b, run) :: rest =>
      if c.isDigit == b then (b, c :: run) :: rest
      else (c.isDigit, [c]) :: (b, run) :: rest

/-- One element of a natural sort key: a text chunk or a numeric chunk
(Python compares the int value of a digit chunk). -/
inductive KeyElem where
  | s : String → KeyElem
  | n : Nat → KeyElem
deriving DecidableEq

/-- Numeric value of a run of decimal digits, as Python int() reads it. -/
def natOfDigits (cs : List Char) : Nat :=
  cs.foldl (fun a c => a * 10 + (c.toNat - 48)) 0

/-- Assemble the chunk list that re.split(r'(\d+)', s) produces, already
mapped through int-if-digits: a (possibly empty) text chunk precedes
every digit chunk and ends the list.  The input runs alternate between
digit and non-digit (as digitRuns guarantees), so the digit run matched
in the middle branch always carries the digit tag. -/
def keyFromRuns : List (Bool × List Char) → List KeyElem
  | [] => [KeyElem.s ""]
  | (false, run) :: rest =>
    match rest with
    | [] => [KeyElem.s (String.mk run)]
    | (_, drun) :: rest2 =>
      KeyElem.s (String.mk run) :: KeyElem.n (natOfDigits drun) :: keyFromRuns rest2
  | (true, drun) :: rest =>
    KeyElem.s "" :: KeyElem.n (natOfDigits drun) :: keyFromRuns rest

/-- Embedding of _natural_key from factory.py:
[int(s) if s.isdigit() else s for s in re.split(r'(\d+)', string_.lower())]. -/
def natural_key (s : String) : List KeyElem :=
  keyFromRuns (digitRuns (pyLower s).toList)

/-- Strict comparison of char lists by code point, as Python compares
strings: the first differing position decides, a strict prefix is
smaller. -/
def charListLt : List Char → List Char → Bool
  | _, [] => false
  | [], _ :: _ => true
  | a :: as, b :: bs =>
    if a < b then true
    else if b < a then false
    else charListLt as bs

/-- Strict comparison of two key elements, as Python compares ints and
strings.  A mixed pair raises TypeError in Python; it never occurs when
both lists come from natural_key (text and numeric chunks alternate in
step), so the mixed cases are fixed arbitrarily. -/
def keyElemLtB : KeyElem → KeyElem → Bool
  | .n x, .n y => decide (x < y)
  | .s x, .s y => charListLt x.toList y.toList
  | .n _, .s _ => true
  | .s _, .n _ => false

/-- Strict lexicographic comparison of key lists, as Python compares
lists: the first position where the elements differ decides, a strict
prefix is smaller. -/
def keyLtB : List KeyElem → List KeyElem → Bool
  | _, [] => false
  | [], _ :: _ => true
  | a :: as, b :: bs =>
    if keyElemLtB a b then true
    else if keyElemLtB b a then false
    else keyLtB as bs

/-- Sort order on names used by sorted(..., key=_natural_key): name x
precedes-or-ties name y when the natural key of y is not strictly below
that of x. -/
def strNatLe (x y : String) : Prop :=
  keyLtB (natural_key y) (natural_key x) = false

instance : DecidableRel strNatLe := fun _ _ => instDecidableEqBool _ _

/-- Sort order on registry entries (sorted by natural key of the name). -/
def entryLe (p q : String × PyVal) : Prop := strNatLe p.1 q.1

instance : DecidableRel entryLe := fun _ _ => instDecidableEqBool _ _

/-- Evaluation of one candidate file: its parsed value and whether the
three required fields are present, or none when json.load or the
membership test raises. -/
def fileVal (cf : ConfigFile) : Option (PyVal × Bool) :=
  match cf.parse with
  | .ok v =>
    match hasRequired v with
    | .ok b => some (v, b)
    | .error _ => none
  | .error _ => none

/-- Embedding of the scan loop of _rescan_model_configs: open each
candidate file in order, json.load it (propagating a parse error),
check the required fields (propagating a TypeError), and insert valid
documents into the registry keyed by the file stem. -/
def scanFiles (files : List ConfigFile) (regs : List (String × PyVal)) :
    Except String (List (String × PyVal)) :=
  match files with
  | [] => .ok regs
  | cf :: rest =>
    match cf.parse with
    | .error e => .error e
    | .ok v =>
      match hasRequired v with
      | .error e => .error e
      | .ok ok => scanFiles rest (if ok then dictInsert cf.stem v regs else regs)

/-- Embedding of _rescan_model_configs from factory.py.  The candidate
files of all registered sources are processed in order into the
existing registry (the loop never clears _MODEL_CONFIGS), and the
result is rebuilt sorted by natural key of the name; Python sorted is a
stable sort, modelled by insertionSort. -/
def rescan_model_configs (st : FactoryState) : Except String FactoryState :=
  match scanFiles (sources st).flatten st.configs with
  | .error e => .error e
  | .ok merged => .ok { st with configs := List.insertionSort entryLe merged }

/-- Embedding of add_model_config from factory.py: append the source
and rescan. -/
def add_model_config (st : FactoryState) (src : Source) : Except String FactoryState :=
  rescan_model_configs { st with extraPaths := st.extraPaths ++ [src] }

/-- The collection loop of list_models: json.load every candidate file
of the scanned directory (propagating errors) and keep the stems of the
documents that carry the three required fields, in file order. -/
def collectModels : List ConfigFile → Except String (List String)
  | [] => .ok []
  | cf :: rest =>
    match cf.parse with
    | .error e => .error e
    | .ok v =>
      match hasRequired v with
      | .error e => .error e
      | .ok b =>
        match collectModels rest with
        | .error e => .error e
        | .ok tail => .ok (if b then cf.stem :: tail else tail)

/-- Embedding of list_models from factory.py.  It re-scans only the
fixed built-in model_configs directory (not the registered source
list) and returns the valid stems sorted by natural key. -/
def list_models (st : FactoryState) : Except String (List String) :=
  match collectModels st.defaultDir with
  | .error e => .error e
  | .ok models => .ok (List.insertionSort strNatLe models)

/-- External collaborators of create_model (the original-provider
loader, the pretrained resolver, the filesystem and the checkpoint
store), abstracted as total functions.  get_pretrained_url returns the
empty string when the (name, tag) pair is unknown, as the real resolver
does. -/
structure Env where
  get_pretrained_url : String → String → String
  download_pretrained : String → String
  path_exists : String → Bool
  checkpoint_at : String → PyVal

/-- Observable events of one create_model run, in order. -/
inductive Ev where
  | openaiLoad : String → Ev
  | consultRegistry : String → Ev
  | constructModel : Ev
  | checkExists : String → Ev
  | loadCheckpoint : String → Ev
  | convertFp16 : Ev
  | jitCompile : Ev
deriving DecidableEq

/-- Errors create_model can raise. -/
inductive Err where
  | configNotFound : String → Err
  | weightsNotFound : String → Err
  | loadError : String → Err
  | typeError : String → Err
  | assertionError : Err
deriving DecidableEq

/-- Model of the Python item assignment v[k] = w as an expression: only
a dict supports it, anything else raises TypeError. -/
def pySetKey (v : PyVal) (k : String) (w : PyVal) : Except String PyVal :=
  match v with
  | .obj fields => .ok (.obj (dictInsert k w fields))
  | _ => .error "TypeError: object does not support item assignment"

/-- Model of unpacking CLIP(**model_cfg): the value must be a mapping. -/
def asKwargs (v : PyVal) : Except String (List (String × PyVal)) :=
  match v with
  | .obj fields => .ok fields
  | _ => .error "TypeError: argument after ** must be a mapping"

/-- The finished model object, recording everything this module did to
it: the kwargs CLIP was constructed from (empty for the original
provider branch), the checkpoint whose state dict was loaded, the
device it was moved to, and the applied precision / jit transforms. -/
structure BuiltModel where
  fromOpenai : Bool
  cfg : List (String × PyVal)
  loaded : Option String
  device : String
  floated : Bool
  fp16Converted : Bool
  jitted : Bool

/-- Tail of the config-driven branch of create_model, shared by the
with- and without-checkpoint paths: model.to(device), then the fp16
step (assert device.type != 'cpu' before convert_weights_to_fp16), then
the optional jit compilation.  The assert fires before any conversion,
so the cpu case emits no convertFp16 event. -/
def finishModel (st : FactoryState) (precision deviceType : String) (jit : Bool)
    (model_cfg : List (String × PyVal)) (loaded : Option String) (tr : List Ev) :
    List Ev × Except Err BuiltModel × FactoryState :=
  if precision = "fp16" then
    if deviceType = "cpu" then (tr, .error Err.assertionError, st)
    else
      (tr ++ [Ev.convertFp16] ++ (if jit then [Ev.jitCompile] else []),
       .ok { fromOpenai := false, cfg := model_cfg, loaded := loaded,
             device := deviceType, floated := false, fp16Converted := true,
             jitted := jit }, st)
  else
    (tr ++ (if jit then [Ev.jitCompile] else []),
     .ok { fromOpenai := false, cfg := model_cfg, loaded := loaded,
           device := deviceType, floated := false, fp16Converted := false,
           jitted := jit }, st)

/-- Embedding of create_model from factory.py.  The identifier
pretrained is lowercased once at entry and that lowered string is used
everywhere afterwards (branch test, url lookup, existence check,
checkpoint path).  The registry entry is deep-copied before the
quick_gelu override, so the returned post-state is the input state
unchanged.  The result is the event trace, the outcome, and the
post-state. -/
def create_model (env : Env) (st : FactoryState)
    (model_name pretrained precision deviceType : String)
    (jit force_quick_gelu : Bool) :
    List Ev × Except Err BuiltModel × FactoryState :=
  let pret := pyLower pretrained
  if pret = "openai" then
    ([Ev.openaiLoad model_name],
     .ok { fromOpenai := true, cfg := [], loaded := none, device := deviceType,
           floated := precision = "amp" ∨ precision = "fp32",
           fp16Converted := false, jitted := jit },
     st)
  else
    match pyLookup st.configs model_name with
    | none =>
      ([Ev.consultRegistry model_name], .error (Err.configNotFound model_name), st)
    | some cfg0 =>
      -- model_cfg = deepcopy(_MODEL_CONFIGS[model_name]); the quick_gelu
      -- override mutates only the copy, so the registry entry cfg0 (and the
      -- state st) stay untouched.
      match (if force_quick_gelu then pySetKey cfg0 "quick_gelu" (.bool true) else .ok cfg0) with
      | .error e => ([Ev.consultRegistry model_name], .error (Err.typeError e), st)
      | .ok cfgVal =>
      match asKwargs cfgVal with
      | .error e => ([Ev.consultRegistry model_name], .error (Err.typeError e), st)
      | .ok model_cfg =>
      let tr0 := [Ev.consultRegistry model_name, Ev.constructModel]
      if pret = "" then finishModel st precision deviceType jit model_cfg none tr0
      else
        let url := env.get_pretrained_url model_name pret
        if url = "" then
          -- elif os.path.exists(pretrained): the lowered string is tested
          let tr1 := tr0 ++ [Ev.checkExists pret]
          if env.path_exists pret then
            match load_state_dict (env.checkpoint_at pret) with
            | .error e => (tr1 ++ [Ev.loadCheckpoint pret], .error (Err.loadError e), st)
            | .ok _ =>
              finishModel st precision deviceType jit model_cfg (some pret)
                (tr1 ++ [Ev.loadCheckpoint pret])
          else
            (tr1, .error (Err.weightsNotFound pret), st)
        else
          let cp := env.download_pretrained url
          match load_state_dict (env.checkpoint_at cp) with
          | .error e => (tr0 ++ [Ev.loadCheckpoint cp], .error (Err.loadError e), st)
          | .ok _ =>
            finishModel st precision deviceType jit model_cfg (some cp)
              (tr0 ++ [Ev.loadCheckpoint cp])

/-! Helper lemmas about dicts. -/

/-- Inserting never yields the empty dict. -/
theorem dictInsert_ne_nil (k : String) (v : PyVal) (l : List (String × PyVal)) :
    dictInsert k v l ≠ [] := by
  cases l with
  | nil => simp [dictInsert]
  | cons p rest =>
    obtain ⟨k', v'⟩ := p
    simp only [dictInsert]
    split <;> simp

/-- Folding dict insertions over a nonempty accumulator stays nonempty. -/
theorem foldl_dictInsert_ne_nil (l : List (String × PyVal))
    (acc : List (String × PyVal)) (h : acc ≠ []) :
    l.foldl (fun acc p => dictInsert p.1 p.2 acc) acc ≠ [] := by
  induction l generalizing acc with
  | nil => exact h
  | cons p rest ih => exact ih _ (dictInsert_ne_nil _ _ _)

/-- A dict built from a nonempty pair list is nonempty. -/
theorem pyDict_cons_ne_nil (p : String × PyVal) (l : List (String × PyVal)) :
    pyDict (p :: l) ≠ [] := by
  simp only [pyDict, List.foldl_cons]
  exact foldl_dictInsert_ne_nil _ _ (dictInsert_ne_nil _ _ _)

/-- C2 (amended).  The loader output is canonical in the following
sense: a mapping holding a state_dict key is unwrapped to the inner
value; when the first key of the resulting mapping starts with the
6-character literal module (the code requires no separator after it),
the first 7 characters are stripped from every key; when the first key
does not start with module, the returned mapping is identical to the
resulting mapping (in particular, identical to the input when there was
no wrapper). -/
theorem load_state_dict_canonical :
    (∀ fields inner, pyLookup fields "state_dict" = some inner →
      sdOf (PyVal.obj fields) = inner) ∧
    (∀ cp k v rest, sdOf cp = PyVal.obj ((k, v) :: rest) →
      startsWithModule k = true →
      load_state_dict cp =
        .ok (pyDict (((k, v) :: rest).map (fun p => (pyDrop7 p.1, p.2))))) ∧
    (∀ cp k v rest, sdOf cp = PyVal.obj ((k, v) :: rest) →
      startsWithModule k = false →
      load_state_dict cp = .ok ((k, v) :: rest)) := by
  refine ⟨?_, ?_, ?_⟩
  · intro fields inner h
    simp [sdOf, h]
  · intro cp k v rest h hm
    simp [load_state_dict, h, hm]
  · intro cp k v rest h hm
    simp [load_state_dict, h, hm]

/-- Witness for load_state_dict_canonical: the wrapper is unwrapped, a
module. prefix is stripped, and an untouched mapping comes back as is. -/
theorem load_state_dict_canonical_witness :
    sdOf (PyVal.obj [("state_dict", PyVal.obj [("module.a", PyVal.tensor 3)])]) =
      PyVal.obj [("module.a", PyVal.tensor 3)] ∧
    load_state_dict (PyVal.obj [("state_dict", PyVal.obj [("module.a", PyVal.tensor 3)])]) =
      .ok [("a", PyVal.tensor 3)] ∧
    load_state_dict (PyVal.obj [("weight", PyVal.tensor 1)]) =
      .ok [("weight", PyVal.tensor 1)] :=
  ⟨load_state_dict_canonical.1 _ _ rfl,
   load_state_dict_canonical.2.1 _ "module.a" (PyVal.tensor 3) [] rfl rfl,
   load_state_dict_canonical.2.2 _ "weight" (PyVal.tensor 1) [] rfl rfl⟩

/-- C2 (counterexample).  A checkpoint whose first key starts with
module but with no separator after it (modules.weight) has neither the
wrapper nor the module-plus-separator prefix, yet the loader still
strips 7 characters from every key, so the output differs from the
input mapping. -/
theorem load_state_dict_not_identity_on_module_like_prefix :
    load_state_dict (PyVal.obj [("modules.weight", PyVal.tensor 0)]) =
      .ok [(".weight", PyVal.tensor 0)] ∧
    load_state_dict (PyVal.obj [("modules.weight", PyVal.tensor 0)]) ≠
      .ok [("modules.weight", PyVal.tensor 0)] := by
  refine ⟨rfl, fun h => ?_⟩
  have hk := congrArg
    (fun e => match e with
      | Except.ok ((k, _) :: _) => k
      | _ => "") h
  exact absurd hk (by decide)

/-- C9.  A checkpoint whose resulting parameter mapping is empty makes
the first-key probe raise StopIteration, and no run of the loader ever
returns an empty mapping. -/
theorem load_state_dict_empty_never_ok :
    (∀ cp, sdOf cp = PyVal.obj [] → load_state_dict cp = .error "StopIteration") ∧
    (∀ cp, load_state_dict cp ≠ .ok []) := by
  constructor
  · intro cp h
    simp [load_state_dict, h]
  · intro cp h
    unfold load_state_dict at h
    cases hs : sdOf cp with
    | obj fields =>
      rw [hs] at h
      cases fields with
      | nil => simp at h
      | cons p rest =>
        obtain ⟨k, v⟩ := p
        by_cases hm : startsWithModule k
        · simp only [hm, List.map_cons, if_true] at h
          exact absurd (Except.ok.inj h) (pyDict_cons_ne_nil _ _)
        · simp [hm] at h
    | arr xs => rw [hs] at h; simp at h
    | str s => rw [hs] at h; simp at h
    | num n => rw [hs] at h; simp at h
    | bool b => rw [hs] at h; simp at h
    | null => rw [hs] at h; simp at h
    | tensor t => rw [hs] at h; simp at h

/-- Witness for load_state_dict_empty_never_ok: an empty mapping under
the state_dict wrapper raises, and a run on a concrete checkpoint never
returns the empty mapping. -/
theorem load_state_dict_empty_never_ok_witness :
    load_state_dict (PyVal.obj [("state_dict", PyVal.obj [])]) = .error "StopIteration" ∧
    load_state_dict (PyVal.obj [("w", PyVal.tensor 0)]) ≠ .ok [] :=
  ⟨load_state_dict_empty_never_ok.1 _ rfl,
   load_state_dict_empty_never_ok.2 _⟩

/-- A config document carrying all three required fields, used as a
concrete example. -/
def validCfgVal : PyVal :=
  PyVal.obj [("embed_dim", .num 512), ("vision_cfg", .obj []), ("text_cfg", .obj [])]

/-- C1 (counterexample).  A candidate config file that json.load cannot
parse is not silently skipped: the scan loop has no exception handler,
so the rescan aborts with the parse error instead of completing. -/
theorem rescan_error_on_unparsable :
    rescan_model_configs
        { defaultDir := [⟨"bad", .error "JSONDecodeError: Expecting value"⟩],
          extraPaths := [], configs := [] } =
      .error "JSONDecodeError: Expecting value" := rfl

/-- The scan loop leaves the registry untouched and raises nothing when
every candidate file parses and fails the required-field check. -/
theorem scanFiles_skips_invalid (files : List ConfigFile)
    (regs : List (String × PyVal))
    (h : ∀ cf ∈ files, ∃ v, cf.parse = .ok v ∧ hasRequired v = .ok false) :
    scanFiles files regs = .ok regs := by
  induction files with
  | nil => rfl
  | cons cf rest ih =>
    obtain ⟨v, hp, hr⟩ := h cf (List.mem_cons_self _ _)
    simp only [scanFiles, hp, hr, if_neg Bool.false_ne_true]
    exact ih (fun cf' h' => h cf' (List.mem_cons_of_mem _ h'))

/-- C1 (amended).  Every candidate file that parses as a structured
document but fails the required-field check is silently skipped: when
all candidates are of that kind the rescan completes without error and
contributes no registry entry (the registry is only re-sorted).
Unparsable candidates are not skipped; they abort the scan with the
parse error. -/
theorem rescan_skips_invalid_documents (st : FactoryState)
    (h : ∀ cf ∈ (sources st).flatten,
      ∃ v, cf.parse = .ok v ∧ hasRequired v = .ok false) :
    rescan_model_configs st =
      .ok { st with configs := List.insertionSort entryLe st.configs } := by
  simp [rescan_model_configs, scanFiles_skips_invalid _ _ h]

/-- Witness for rescan_skips_invalid_documents: a document with
embed_dim but no vision_cfg is skipped and the rescan succeeds. -/
theorem rescan_skips_invalid_documents_witness :
    rescan_model_configs
        { defaultDir := [⟨"half", .ok (PyVal.obj [("embed_dim", .num 1)])⟩],
          extraPaths := [], configs := [] } =
      .ok { defaultDir := [⟨"half", .ok (PyVal.obj [("embed_dim", .num 1)])⟩],
            extraPaths := [], configs := [] } :=
  rescan_skips_invalid_documents _ (by
    intro cf hcf
    simp only [sources] at hcf
    rw [show ([[⟨"half", .ok (PyVal.obj [("embed_dim", .num 1)])⟩]] : List Source).flatten
          = [⟨"half", .ok (PyVal.obj [("embed_dim", .num 1)])⟩] from rfl,
       List.mem_singleton] at hcf
    exact hcf ▸ ⟨PyVal.obj [("embed_dim", .num 1)], rfl, rfl⟩)

/-- C5.  When the lowered pretrained identifier is not openai and the
architecture name is absent from the registry, create_model raises the
configuration-not-found error; the trace shows the registry probe and
nothing else, so no model object is ever constructed. -/
theorem create_model_unknown_name_raises
    (env : Env) (st : FactoryState) (name pretrained precision dev : String)
    (jit fqg : Bool)
    (hpre : pyLower pretrained ≠ "openai")
    (habs : pyLookup st.configs name = none) :
    create_model env st name pretrained precision dev jit fqg =
      ([Ev.consultRegistry name], .error (Err.configNotFound name), st) ∧
    Ev.constructModel ∉ (create_model env st name pretrained precision dev jit fqg).1 := by
  have h : create_model env st name pretrained precision dev jit fqg =
      ([Ev.consultRegistry name], .error (Err.configNotFound name), st) := by
    simp [create_model, hpre, habs]
  refine ⟨h, ?_⟩
  rw [h]
  simp

/-- Environment with no known urls, no existing paths and a null
checkpoint store, used to instantiate witnesses. -/
def trivialEnv : Env :=
  { get_pretrained_url := fun _ _ => "", download_pretrained := id,
    path_exists := fun _ => false, checkpoint_at := fun _ => PyVal.null }

/-- Factory state with no sources and an empty registry. -/
def emptyState : FactoryState := { defaultDir := [], extraPaths := [], configs := [] }

/-- Factory state whose registry holds one known architecture. -/
def rn50State : FactoryState :=
  { defaultDir := [], extraPaths := [], configs := [("RN50", validCfgVal)] }

/-- Witness for create_model_unknown_name_raises at a concrete call. -/
theorem create_model_unknown_name_raises_witness :
    create_model trivialEnv emptyState "ViT-B-99" "" "fp32" "cpu" false false =
      ([Ev.consultRegistry "ViT-B-99"], .error (Err.configNotFound "ViT-B-99"), emptyState) :=
  (create_model_unknown_name_raises trivialEnv emptyState "ViT-B-99" "" "fp32" "cpu"
    false false (by decide) rfl).1

/-- C6.  When the lowered pretrained identifier equals openai,
create_model takes the original-provider branch: the trace is exactly
the external load and contains no registry consultation. -/
theorem create_model_openai_skips_registry
    (env : Env) (st : FactoryState) (name pretrained precision dev : String)
    (jit fqg : Bool)
    (h : pyLower pretrained = "openai") :
    (create_model env st name pretrained precision dev jit fqg).1 = [Ev.openaiLoad name] ∧
    ∀ n, Ev.consultRegistry n ∉ (create_model env st name pretrained precision dev jit fqg).1 := by
  have htr : (create_model env st name pretrained precision dev jit fqg).1 =
      [Ev.openaiLoad name] := by
    simp [create_model, h]
  refine ⟨htr, fun n => ?_⟩
  rw [htr]
  simp

/-- Witness for create_model_openai_skips_registry: the identifier
OpenAI lowers to openai and the registry is never consulted. -/
theorem create_model_openai_skips_registry_witness :
    (create_model trivialEnv emptyState "RN50" "OpenAI" "fp32" "cpu" false false).1 =
      [Ev.openaiLoad "RN50"] ∧
    ∀ n, Ev.consultRegistry n ∉
      (create_model trivialEnv emptyState "RN50" "OpenAI" "fp32" "cpu" false false).1 :=
  create_model_openai_skips_registry trivialEnv emptyState "RN50" "OpenAI" "fp32" "cpu"
    false false (by decide)

/-- The config-branch tail with fp16 precision on the cpu device stops
at the assertion: the trace gains no conversion event and the outcome
is the assertion failure. -/
theorem finishModel_fp16_cpu (st : FactoryState) (jit : Bool)
    (cfg : List (String × PyVal)) (loaded : Option String) (tr : List Ev) :
    finishModel st "fp16" "cpu" jit cfg loaded tr = (tr, .error Err.assertionError, st) := rfl

/-- C7.  A config-branch call with precision fp16 on the default cpu
device never performs the weight conversion and never returns a model:
every such run ends in an error, and whenever execution reaches the
precision step (known architecture, empty pretrained identifier) that
error is precisely the assertion failure raised before the conversion. -/
theorem create_model_fp16_cpu_asserts
    (env : Env) (st : FactoryState) (name pretrained : String) (jit fqg : Bool)
    (hpre : pyLower pretrained ≠ "openai") :
    Ev.convertFp16 ∉ (create_model env st name pretrained "fp16" "cpu" jit fqg).1 ∧
    (∃ e, (create_model env st name pretrained "fp16" "cpu" jit fqg).2.1 = .error e) ∧
    (∀ fields, pyLookup st.configs name = some (PyVal.obj fields) → pretrained = "" →
      (create_model env st name pretrained "fp16" "cpu" jit fqg).2.1 =
        .error Err.assertionError) := by
  refine ⟨?_, ?_, ?_⟩
  · simp only [create_model]
    rw [if_neg hpre]
    split
    · simp
    · split
      · simp
      · split
        · simp
        · split
          · simp [finishModel]
          · split
            · split
              · split
                · simp
                · simp [finishModel]
              · simp
            · split
              · simp
              · simp [finishModel]
  · simp only [create_model]
    rw [if_neg hpre]
    split
    · exact ⟨_, rfl⟩
    · split
      · exact ⟨_, rfl⟩
      · split
        · exact ⟨_, rfl⟩
        · split
          · exact ⟨_, rfl⟩
          · split
            · split
              · split
                · exact ⟨_, rfl⟩
                · exact ⟨_, rfl⟩
              · exact ⟨_, rfl⟩
            · split
              · exact ⟨_, rfl⟩
              · exact ⟨_, rfl⟩
  · intro fields hf hz
    subst hz
    simp only [create_model]
    rw [if_neg hpre, hf]
    cases fqg <;> simp [pySetKey, asKwargs, pyLower, finishModel_fp16_cpu]

/-- Witness for create_model_fp16_cpu_asserts: a known architecture,
empty pretrained identifier, fp16 on cpu ends in the assertion error
with no conversion event. -/
theorem create_model_fp16_cpu_asserts_witness :
    Ev.convertFp16 ∉ (create_model trivialEnv
      { defaultDir := [], extraPaths := [], configs := [("RN50", validCfgVal)] }
      "RN50" "" "fp16" "cpu" false false).1 ∧
    (create_model trivialEnv
      { defaultDir := [], extraPaths := [], configs := [("RN50", validCfgVal)] }
      "RN50" "" "fp16" "cpu" false false).2.1 = .error Err.assertionError :=
  ⟨(create_model_fp16_cpu_asserts trivialEnv _ "RN50" "" false false (by decide)).1,
   (create_model_fp16_cpu_asserts trivialEnv _ "RN50" "" false false (by decide)).2.2
     [("embed_dim", .num 512), ("vision_cfg", .obj []), ("text_cfg", .obj [])] rfl rfl⟩

/-- The config-branch tail never touches the factory state. -/
theorem finishModel_state (st : FactoryState) (precision dev : String) (jit : Bool)
    (cfg : List (String × PyVal)) (loaded : Option String) (tr : List Ev) :
    (finishModel st precision dev jit cfg loaded tr).2.2 = st := by
  unfold finishModel
  split
  · split <;> rfl
  · rfl

/-- A model the config-branch tail returns carries exactly the kwargs
it was given. -/
theorem finishModel_ok_cfg (st : FactoryState) (precision dev : String) (jit : Bool)
    (cfg : List (String × PyVal)) (loaded : Option String) (tr : List Ev)
    (m : BuiltModel) (h : (finishModel st precision dev jit cfg loaded tr).2.1 = .ok m) :
    m.cfg = cfg := by
  unfold finishModel at h
  split at h
  · split at h
    · simp at h
    · obtain rfl := Except.ok.inj h
      rfl
  · obtain rfl := Except.ok.inj h
    rfl

/-- C8.  create_model returns the factory state unchanged on every
path: the registry entry is deep-copied, the quick_gelu override
mutates only the copy, and any model built in the config branch with
the force flag set carries the overridden copy while the registry entry
retains its original value. -/
theorem create_model_registry_unchanged
    (env : Env) (st : FactoryState) (name pretrained precision dev : String)
    (jit fqg : Bool) :
    (create_model env st name pretrained precision dev jit fqg).2.2 = st ∧
    (∀ fields m, pyLookup st.configs name = some (PyVal.obj fields) →
      fqg = true →
      (create_model env st name pretrained precision dev jit fqg).2.1 = .ok m →
      m.fromOpenai = false →
      m.cfg = dictInsert "quick_gelu" (PyVal.bool true) fields) := by
  constructor
  · simp only [create_model]
    split
    · rfl
    · split
      · rfl
      · split
        · rfl
        · split
          · rfl
          · split
            · apply finishModel_state
            · split
              · split
                · split
                  · rfl
                  · apply finishModel_state
                · rfl
              · split
                · rfl
                · apply finishModel_state
  · intro fields m hf hq hok hfo
    subst hq
    by_cases hpre : pyLower pretrained = "openai"
    · simp [create_model, hpre] at hok
      rw [← hok] at hfo
      simp at hfo
    · simp only [create_model] at hok
      rw [if_neg hpre, hf] at hok
      simp only [if_pos, pySetKey, asKwargs] at hok
      split at hok
      · exact finishModel_ok_cfg _ _ _ _ _ _ _ _ hok
      · split at hok
        · split at hok
          · split at hok
            · simp at hok
            · exact finishModel_ok_cfg _ _ _ _ _ _ _ _ hok
          · simp at hok
        · split at hok
          · simp at hok
          · exact finishModel_ok_cfg _ _ _ _ _ _ _ _ hok

/-- Witness for create_model_registry_unchanged: with the force flag
set, the registry still holds the original document afterwards and the
built model got the overridden copy. -/
theorem create_model_registry_unchanged_witness :
    (create_model trivialEnv rn50State "RN50" "" "fp32" "cpu" false true).2.2 = rn50State ∧
    ∀ m, (create_model trivialEnv rn50State "RN50" "" "fp32" "cpu" false true).2.1 = .ok m →
      m.fromOpenai = false →
      m.cfg = dictInsert "quick_gelu" (PyVal.bool true)
        [("embed_dim", .num 512), ("vision_cfg", .obj []), ("text_cfg", .obj [])] :=
  ⟨(create_model_registry_unchanged trivialEnv rn50State "RN50" "" "fp32" "cpu" false true).1,
   fun m hok hfo =>
     (create_model_registry_unchanged trivialEnv rn50State "RN50" "" "fp32" "cpu" false true).2
       [("embed_dim", .num 512), ("vision_cfg", .obj []), ("text_cfg", .obj [])]
       m rfl rfl hok hfo⟩

/-- Converting a valid scalar value to a char and back is the
identity. -/
theorem charOfNat_toNat (n : Nat) (h : n.isValidChar) : (Char.ofNat n).toNat = n := by
  rw [Char.ofNat, dif_pos h]
  rfl

/-- An ASCII uppercase character is changed by lowering. -/
theorem pyLowerChar_ne_of_upper (c : Char) (h1 : 65 ≤ c.toNat) (h2 : c.toNat ≤ 90) :
    pyLowerChar c ≠ c := by
  intro he
  have hv : (c.toNat + 32).isValidChar := Or.inl (by omega)
  have hn := congrArg Char.toNat he
  rw [pyLowerChar, if_pos ⟨h1, h2⟩, charOfNat_toNat _ hv] at hn
  omega

/-- A map that returns its input list fixes every element. -/
theorem map_fixes_mem {α : Type} (f : α → α) (l : List α) (h : l.map f = l) :
    ∀ x ∈ l, f x = x := by
  induction l with
  | nil => simp
  | cons a as ih =>
    simp only [List.map_cons, List.cons.injEq] at h
    intro x hx
    rcases List.mem_cons.mp hx with rfl | hx
    · exact h.1
    · exact ih h.2 x hx

/-- A string containing an ASCII uppercase character is changed by
lowering. -/
theorem pyLower_ne_of_upper (s : String)
    (h : ∃ c ∈ s.toList, 65 ≤ c.toNat ∧ c.toNat ≤ 90) : pyLower s ≠ s := by
  obtain ⟨c, hc, h1, h2⟩ := h
  intro he
  have hmap : s.toList.map pyLowerChar = s.toList := congrArg String.toList he
  exact pyLowerChar_ne_of_upper c h1 h2 (map_fixes_mem _ _ hmap c hc)

/-- The config-branch tail only appends events to the trace it is
given. -/
theorem finishModel_trace_mem (st : FactoryState) (precision dev : String) (jit : Bool)
    (cfg : List (String × PyVal)) (loaded : Option String) (tr : List Ev)
    (x : Ev) (hx : x ∈ tr) :
    x ∈ (finishModel st precision dev jit cfg loaded tr).1 := by
  unfold finishModel
  split
  · split
    · exact hx
    · simp [hx]
  · simp [hx]

/-- C10.  create_model lowercases the pretrained identifier up front:
in the local-path fallback the existence test and the checkpoint
location both use the lowered string, and whenever the identifier
contains an ASCII uppercase character that string differs from what the
caller passed. -/
theorem create_model_lowercased_path
    (env : Env) (st : FactoryState) (name pretrained precision dev : String)
    (jit fqg : Bool) (fields : List (String × PyVal))
    (hpre : pyLower pretrained ≠ "openai")
    (hz : pyLower pretrained ≠ "")
    (hurl : env.get_pretrained_url name (pyLower pretrained) = "")
    (hf : pyLookup st.configs name = some (PyVal.obj fields)) :
    Ev.checkExists (pyLower pretrained) ∈
      (create_model env st name pretrained precision dev jit fqg).1 ∧
    (env.path_exists (pyLower pretrained) = true →
      Ev.loadCheckpoint (pyLower pretrained) ∈
        (create_model env st name pretrained precision dev jit fqg).1) ∧
    ((∃ c ∈ pretrained.toList, 65 ≤ c.toNat ∧ c.toNat ≤ 90) →
      pyLower pretrained ≠ pretrained) := by
  have main : Ev.checkExists (pyLower pretrained) ∈
      (create_model env st name pretrained precision dev jit fqg).1 ∧
    (env.path_exists (pyLower pretrained) = true →
      Ev.loadCheckpoint (pyLower pretrained) ∈
        (create_model env st name pretrained precision dev jit fqg).1) := by
    simp only [create_model]
    rw [if_neg hpre]
    split
    next heq => rw [hf] at heq; simp at heq
    next cfg0 heq =>
      rw [hf] at heq
      obtain rfl := Option.some.inj heq
      split
      next e heq2 =>
        cases fqg <;> simp [pySetKey] at heq2
      next cfgVal heq2 =>
        split
        next e heq3 =>
          cases fqg <;> simp [pySetKey] at heq2 <;> rw [← heq2] at heq3 <;>
            simp [asKwargs] at heq3
        next mcfg heq3 =>
          rw [if_neg hz, if_pos hurl]
          by_cases hex : env.path_exists (pyLower pretrained)
          · rw [if_pos hex]
            split
            · constructor
              · simp
              · intro _; simp
            · constructor
              · apply finishModel_trace_mem; simp
              · intro _; apply finishModel_trace_mem; simp
          · rw [if_neg hex]
            constructor
            · simp
            · intro hcontra; exact absurd hcontra hex
  exact ⟨main.1, main.2, fun hup => pyLower_ne_of_upper _ hup⟩

/-- Witness for create_model_lowercased_path: the caller passes the
identifier MyCkpt.PT; the existence test and the failure report use
myckpt.pt, which differs from the identifier passed. -/
theorem create_model_lowercased_path_witness :
    Ev.checkExists (pyLower "MyCkpt.PT") ∈
      (create_model trivialEnv rn50State "RN50" "MyCkpt.PT" "fp32" "cpu" false false).1 ∧
    pyLower "MyCkpt.PT" ≠ "MyCkpt.PT" := by
  have h := create_model_lowercased_path trivialEnv rn50State "RN50" "MyCkpt.PT"
    "fp32" "cpu" false false
    [("embed_dim", .num 512), ("vision_cfg", .obj []), ("text_cfg", .obj [])]
    (by decide) (by decide) rfl rfl
  exact ⟨h.1, h.2.2 ⟨'M', by decide⟩⟩

/-! Order-theoretic facts about the natural-key comparison. -/

/-- Strings with the same characters are equal. -/
theorem string_toList_inj (x y : String) (h : x.toList = y.toList) : x = y := by
  cases x
  cases y
  exact congrArg String.mk (by simpa using h)

/-- Strict char-list comparison is asymmetric. -/
theorem charListLt_asymm (x : List Char) :
    ∀ y, charListLt x y = true → charListLt y x = false := by
  induction x with
  | nil =>
    intro y h
    cases y with
    | nil => simp [charListLt] at h
    | cons b bs => rfl
  | cons a as ih =>
    intro y h
    cases y with
    | nil => simp [charListLt] at h
    | cons b bs =>
      simp only [charListLt] at h ⊢
      by_cases hab : a < b
      · rw [if_neg (lt_asymm hab), if_pos hab]
      · rw [if_neg hab] at h
        by_cases hba : b < a
        · rw [if_pos hba] at h
          exact absurd h (by simp)
        · rw [if_neg hba] at h
          rw [if_neg hba, if_neg hab]
          exact ih bs h

/-- Strict char-list comparison is transitive. -/
theorem charListLt_trans (x : List Char) :
    ∀ y z, charListLt x y = true → charListLt y z = true → charListLt x z = true := by
  induction x with
  | nil =>
    intro y z _ h2
    cases z with
    | nil => cases y <;> simp [charListLt] at h2
    | cons c cs => rfl
  | cons a as ih =>
    intro y z h1 h2
    cases y with
    | nil => simp [charListLt] at h1
    | cons b bs =>
      cases z with
      | nil => simp [charListLt] at h2
      | cons c cs =>
        simp only [charListLt] at h1 h2 ⊢
        by_cases hab : a < b
        · by_cases hbc : b < c
          · rw [if_pos (lt_trans hab hbc)]
          · rw [if_neg hbc] at h2
            by_cases hcb : c < b
            · rw [if_pos hcb] at h2
              exact absurd h2 (by simp)
            · rw [if_neg hcb] at h2
              obtain rfl : b = c := le_antisymm (not_lt.mp hcb) (not_lt.mp hbc)
              rw [if_pos hab]
        · rw [if_neg hab] at h1
          by_cases hba : b < a
          · rw [if_pos hba] at h1
            exact absurd h1 (by simp)
          · rw [if_neg hba] at h1
            obtain rfl : a = b := le_antisymm (not_lt.mp hba) (not_lt.mp hab)
            by_cases hac : a < c
            · rw [if_pos hac]
            · rw [if_neg hac] at h2 ⊢
              by_cases hca : c < a
              · rw [if_pos hca] at h2
                exact absurd h2 (by simp)
              · rw [if_neg hca] at h2 ⊢
                exact ih bs cs h1 h2

/-- Incomparable char lists are equal. -/
theorem charListLt_conn (x : List Char) :
    ∀ y, charListLt x y = false → charListLt y x = false → x = y := by
  induction x with
  | nil =>
    intro y h1 _
    cases y with
    | nil => rfl
    | cons b bs => simp [charListLt] at h1
  | cons a as ih =>
    intro y h1 h2
    cases y with
    | nil => simp [charListLt] at h2
    | cons b bs =>
      simp only [charListLt] at h1 h2
      by_cases hab : a < b
      · rw [if_pos hab] at h1
        exact absurd h1 (by simp)
      · by_cases hba : b < a
        · rw [if_pos hba] at h2
          exact absurd h2 (by simp)
        · rw [if_neg hab, if_neg hba] at h1
          rw [if_neg hba, if_neg hab] at h2
          obtain rfl : a = b := le_antisymm (not_lt.mp hba) (not_lt.mp hab)
          rw [ih bs h1 h2]

/-- Strict element comparison is asymmetric. -/
theorem keyElemLtB_asymm (a b : KeyElem) (h : keyElemLtB a b = true) :
    keyElemLtB b a = false := by
  cases a with
  | s x =>
    cases b with
    | s y =>
      simp only [keyElemLtB] at h ⊢
      exact charListLt_asymm _ _ h
    | n y => simp [keyElemLtB] at h
  | n x =>
    cases b with
    | s y => rfl
    | n y =>
      simp only [keyElemLtB, decide_eq_true_eq] at h
      simp only [keyElemLtB, decide_eq_false_iff_not]
      omega

/-- Strict element comparison is transitive. -/
theorem keyElemLtB_trans (a b c : KeyElem) (h1 : keyElemLtB a b = true)
    (h2 : keyElemLtB b c = true) : keyElemLtB a c = true := by
  cases a with
  | s x =>
    cases b with
    | n y => simp [keyElemLtB] at h1
    | s y =>
      cases c with
      | n z => simp [keyElemLtB] at h2
      | s z =>
        simp only [keyElemLtB] at h1 h2 ⊢
        exact charListLt_trans _ _ _ h1 h2
  | n x =>
    cases b with
    | s y =>
      cases c with
      | n z => simp [keyElemLtB] at h2
      | s z => rfl
    | n y =>
      cases c with
      | s z => rfl
      | n z =>
        simp only [keyElemLtB, decide_eq_true_eq] at h1 h2 ⊢
        omega

/-- Incomparable elements are equal. -/
theorem keyElemLtB_conn (a b : KeyElem) (h1 : keyElemLtB a b = false)
    (h2 : keyElemLtB b a = false) : a = b := by
  cases a with
  | s x =>
    cases b with
    | s y =>
      simp only [keyElemLtB] at h1 h2
      exact congrArg KeyElem.s (string_toList_inj _ _ (charListLt_conn _ _ h1 h2))
    | n y => simp [keyElemLtB] at h2
  | n x =>
    cases b with
    | s y => simp [keyElemLtB] at h1
    | n y =>
      simp only [keyElemLtB, decide_eq_false_iff_not] at h1 h2
      exact congrArg KeyElem.n (by omega)

/-- Strict key-list comparison is asymmetric. -/
theorem keyLtB_asymm (x : List KeyElem) : ∀ y, keyLtB x y = true → keyLtB y x = false := by
  induction x with
  | nil => intro y _; cases y <;> rfl
  | cons a as ih =>
    intro y h
    cases y with
    | nil => simp [keyLtB] at h
    | cons b bs =>
      simp only [keyLtB] at h ⊢
      by_cases hab : keyElemLtB a b = true
      · rw [keyElemLtB_asymm a b hab]
        simp [hab]
      · rw [if_neg hab] at h
        by_cases hba : keyElemLtB b a = true
        · rw [if_pos hba] at h
          exact absurd h (by simp)
        · rw [if_neg hba] at h
          rw [if_neg hba, if_neg hab]
          exact ih bs h

/-- Strict key-list comparison is transitive. -/
theorem keyLtB_trans (x : List KeyElem) :
    ∀ y z, keyLtB x y = true → keyLtB y z = true → keyLtB x z = true := by
  induction x with
  | nil =>
    intro y z _ h2
    cases z with
    | nil => cases y <;> simp [keyLtB] at h2
    | cons c cs => rfl
  | cons a as ih =>
    intro y z h1 h2
    cases y with
    | nil => simp [keyLtB] at h1
    | cons b bs =>
      cases z with
      | nil => simp [keyLtB] at h2
      | cons c cs =>
        simp only [keyLtB] at h1 h2 ⊢
        by_cases hab : keyElemLtB a b = true
        · by_cases hbc : keyElemLtB b c = true
          · rw [keyElemLtB_trans a b c hab hbc]
            simp
          · rw [if_neg hbc] at h2
            by_cases hcb : keyElemLtB c b = true
            · rw [if_pos hcb] at h2
              exact absurd h2 (by simp)
            · rw [if_neg hcb] at h2
              obtain rfl := keyElemLtB_conn b c (by simpa using hbc) (by simpa using hcb)
              rw [if_pos hab]
        · rw [if_neg hab] at h1
          by_cases hba : keyElemLtB b a = true
          · rw [if_pos hba] at h1
            exact absurd h1 (by simp)
          · rw [if_neg hba] at h1
            obtain rfl := keyElemLtB_conn a b (by simpa using hab) (by simpa using hba)
            by_cases hac : keyElemLtB a c = true
            · rw [if_pos hac]
            · rw [if_neg hac] at h2 ⊢
              by_cases hca : keyElemLtB c a = true
              · rw [if_pos hca] at h2
                exact absurd h2 (by simp)
              · rw [if_neg hca] at h2 ⊢
                exact ih bs cs h1 h2

/-- Incomparable key lists are equal. -/
theorem keyLtB_conn (x : List KeyElem) :
    ∀ y, keyLtB x y = false → keyLtB y x = false → x = y := by
  induction x with
  | nil =>
    intro y h1 _
    cases y with
    | nil => rfl
    | cons b bs => simp [keyLtB] at h1
  | cons a as ih =>
    intro y h1 h2
    cases y with
    | nil => simp [keyLtB] at h2
    | cons b bs =>
      simp only [keyLtB] at h1 h2
      by_cases hab : keyElemLtB a b = true
      · rw [if_pos hab] at h1
        exact absurd h1 (by simp)
      · by_cases hba : keyElemLtB b a = true
        · rw [if_pos hba] at h2
          exact absurd h2 (by simp)
        · rw [if_neg hab, if_neg hba] at h1
          rw [if_neg hba, if_neg hab] at h2
          obtain rfl := keyElemLtB_conn a b (by simpa using hab) (by simpa using hba)
          rw [ih bs h1 h2]

/-- The name order used by the sorts is total. -/
theorem strNatLe_total (x y : String) : strNatLe x y ∨ strNatLe y x := by
  unfold strNatLe
  by_cases h : keyLtB (natural_key y) (natural_key x) = true
  · exact Or.inr (keyLtB_asymm _ _ h)
  · exact Or.inl (by simpa using h)

/-- The name order used by the sorts is transitive. -/
theorem strNatLe_trans (x y z : String) (h1 : strNatLe x y) (h2 : strNatLe y z) :
    strNatLe x z := by
  unfold strNatLe at h1 h2 ⊢
  by_cases hzx : keyLtB (natural_key z) (natural_key x) = true
  · by_cases hyz : keyLtB (natural_key y) (natural_key z) = true
    · exact absurd (keyLtB_trans _ _ _ hyz hzx) (by simp [h1])
    · have heq := keyLtB_conn _ _ (show keyLtB (natural_key y) (natural_key z) = false by
        simpa using hyz) h2
      rw [heq] at h1
      exact absurd hzx (by simp [h1])
  · simpa using hzx

instance : IsTotal String strNatLe := ⟨strNatLe_total⟩

instance : IsTrans String strNatLe := ⟨strNatLe_trans⟩

instance : IsTotal (String × PyVal) entryLe := ⟨fun p q => strNatLe_total p.1 q.1⟩

instance : IsTrans (String × PyVal) entryLe :=
  ⟨fun p q r h1 h2 => strNatLe_trans p.1 q.1 r.1 h1 h2⟩

/-- Stems of the candidate files whose documents carry all three
required fields, in file order. -/
def validStems (files : List ConfigFile) : List String :=
  files.filterMap (fun cf =>
    match fileVal cf with
    | some (_, true) => some cf.stem
    | _ => none)

/-- Unpack an evaluable candidate file into its parse and check
results. -/
theorem fileVal_eq (cf : ConfigFile) (h : (fileVal cf).isSome) :
    ∃ v b, cf.parse = .ok v ∧ hasRequired v = .ok b := by
  unfold fileVal at h
  split at h
  next v hp =>
    split at h
    next b hr => exact ⟨v, b, hp, hr⟩
    next e hr => simp at h
  next e hp => simp at h

/-- On evaluable candidates the collection loop of list_models returns
exactly the valid stems in file order. -/
theorem collectModels_ok (files : List ConfigFile)
    (h : ∀ cf ∈ files, (fileVal cf).isSome) :
    collectModels files = .ok (validStems files) := by
  induction files with
  | nil => rfl
  | cons cf rest ih =>
    obtain ⟨v, b, hp, hr⟩ := fileVal_eq cf (h cf (List.mem_cons_self _ _))
    have ht := ih (fun cf' h' => h cf' (List.mem_cons_of_mem _ h'))
    simp only [collectModels, hp, hr, ht, validStems, List.filterMap_cons, fileVal]
    cases b <;> simp

/-- C4 (amended).  list_models re-scans only the fixed built-in
directory: on any state whose built-in directory evaluates cleanly it
returns exactly the stems of the documents there that carry the three
required fields, sorted by natural key (numeric substrings compared as
integers, as the concrete examples show).  Config documents placed in
sources registered with add_model_config are not reported, even though
rescan puts them in the registry. -/
theorem list_models_sorted_default_dir (st : FactoryState)
    (h : ∀ cf ∈ st.defaultDir, (fileVal cf).isSome) :
    list_models st = .ok (List.insertionSort strNatLe (validStems st.defaultDir)) ∧
    (List.insertionSort strNatLe (validStems st.defaultDir)).Sorted strNatLe ∧
    (∀ x, x ∈ List.insertionSort strNatLe (validStems st.defaultDir) ↔
      x ∈ validStems st.defaultDir) ∧
    List.insertionSort strNatLe ["ViT-B-32", "ViT-B-16"] = ["ViT-B-16", "ViT-B-32"] ∧
    List.insertionSort strNatLe ["model10", "model2"] = ["model2", "model10"] := by
  refine ⟨?_, ?_, ?_, ?_, ?_⟩
  · simp [list_models, collectModels_ok _ h]
  · exact List.sorted_insertionSort strNatLe _
  · exact fun x => (List.perm_insertionSort strNatLe _).mem_iff
  · decide
  · decide

/-- Witness for list_models_sorted_default_dir: two valid documents in
the built-in directory are listed in natural-key order. -/
theorem list_models_sorted_default_dir_witness :
    list_models
        { defaultDir := [⟨"ViT-B-32", .ok validCfgVal⟩, ⟨"ViT-B-16", .ok validCfgVal⟩],
          extraPaths := [], configs := [] } =
      .ok ["ViT-B-16", "ViT-B-32"] :=
  (list_models_sorted_default_dir
    { defaultDir := [⟨"ViT-B-32", .ok validCfgVal⟩, ⟨"ViT-B-16", .ok validCfgVal⟩],
      extraPaths := [], configs := [] }
    (by decide)).1

/-- C4 (counterexample).  A valid config document placed in a source
registered via add_model_config lands in the registry after rescan, yet
the enumeration returned by list_models does not include its name: the
listing re-scans only the fixed built-in directory. -/
theorem list_models_ignores_added_sources :
    ∃ st', rescan_model_configs
        { defaultDir := [], extraPaths := [[⟨"extra-model", .ok validCfgVal⟩]],
          configs := [] } = .ok st' ∧
      pyLookup st'.configs "extra-model" = some validCfgVal ∧
      list_models st' = .ok [] :=
  ⟨_, rfl, rfl, rfl⟩

/-! Machinery for the rescan claims: the error-free scan as a pure
fold, and lookup / key characterizations of that fold. -/

/-- One step of the scan loop on an evaluable candidate: insert the
document when it carries the required fields, keep the registry
otherwise. -/
def scanStep (regs : List (String × PyVal)) (cf : ConfigFile) : List (String × PyVal) :=
  match fileVal cf with
  | some (v, true) => dictInsert cf.stem v regs
  | _ => regs

/-- The scan loop as a pure fold (its value when no candidate raises). -/
def scanPure (files : List ConfigFile) (regs : List (String × PyVal)) :
    List (String × PyVal) :=
  files.foldl scanStep regs

/-- All candidate files evaluate without raising. -/
def scanOk (files : List ConfigFile) : Prop := ∀ cf ∈ files, (fileVal cf).isSome

/-- One step of the last-valid-value scan for a fixed stem. -/
def lastValStep (k : String) (acc : Option PyVal) (cf : ConfigFile) : Option PyVal :=
  match fileVal cf with
  | some (v, true) => if cf.stem = k then some v else acc
  | _ => acc

/-- The value of the last valid candidate with the given stem, if any. -/
def lastVal (k : String) (files : List ConfigFile) : Option PyVal :=
  files.foldl (lastValStep k) none

/-- Left-biased choice on options. -/
def optOr : Option PyVal → Option PyVal → Option PyVal
  | some v, _ => some v
  | none, b => b

theorem optOr_assoc (a b c : Option PyVal) : optOr (optOr a b) c = optOr a (optOr b c) := by
  cases a <;> rfl

theorem optOr_absorb (a b : Option PyVal) : optOr a (optOr a b) = optOr a b := by
  cases a <;> rfl

/-- Keys of a dict with a head entry. -/
theorem dictKeys_cons (k' : String) (v' : PyVal) (rest : List (String × PyVal)) :
    dictKeys ((k', v') :: rest) = k' :: dictKeys rest := rfl

/-- Lookup after a dict insertion. -/
theorem pyLookup_dictInsert (a : String) (v : PyVal) (l : List (String × PyVal))
    (b : String) :
    pyLookup (dictInsert a v l) b = if a = b then some v else pyLookup l b := by
  induction l with
  | nil => rfl
  | cons p rest ih =>
    obtain ⟨k', v'⟩ := p
    by_cases h : k' = a
    · subst h
      by_cases hb : k' = b
      · subst hb
        simp [dictInsert, pyLookup]
      · simp [dictInsert, pyLookup, hb]
    · have ha : ¬a = k' := fun he => h he.symm
      by_cases hb : k' = b
      · subst hb
        have hab : ¬a = k' := ha
        simp [dictInsert, pyLookup, h, hab]
      · simp [dictInsert, pyLookup, h, hb, ih]

/-- Inserting an already present key keeps the key sequence. -/
theorem dictKeys_dictInsert_mem (k : String) (v : PyVal) (l : List (String × PyVal))
    (h : k ∈ dictKeys l) : dictKeys (dictInsert k v l) = dictKeys l := by
  induction l with
  | nil => exact absurd h (List.not_mem_nil k)
  | cons p rest ih =>
    obtain ⟨k', v'⟩ := p
    simp only [dictInsert]
    by_cases hk : k' = k
    · rw [if_pos hk, dictKeys_cons, dictKeys_cons, hk]
    · rw [if_neg hk, dictKeys_cons, dictKeys_cons]
      rw [dictKeys_cons] at h
      rcases List.mem_cons.mp h with h' | h'
      · exact absurd h'.symm hk
      · exact congrArg (List.cons k') (ih h')

/-- Inserting a fresh key appends it to the key sequence. -/
theorem dictKeys_dictInsert_notmem (k : String) (v : PyVal) (l : List (String × PyVal))
    (h : k ∉ dictKeys l) : dictKeys (dictInsert k v l) = dictKeys l ++ [k] := by
  induction l with
  | nil => rfl
  | cons p rest ih =>
    obtain ⟨k', v'⟩ := p
    simp only [dictInsert]
    by_cases hk : k' = k
    · exact absurd (by rw [dictKeys_cons, hk]; exact List.mem_cons_self _ _) h
    · rw [if_neg hk, dictKeys_cons, dictKeys_cons, List.cons_append]
      have hmem : k ∉ dictKeys rest := fun hm => by
        rw [dictKeys_cons] at h
        exact h (List.mem_cons_of_mem _ hm)
      exact congrArg (List.cons k') (ih hmem)

/-- Insertion keeps dict keys duplicate-free. -/
theorem nodup_dictKeys_dictInsert (k : String) (v : PyVal) (l : List (String × PyVal))
    (h : (dictKeys l).Nodup) : (dictKeys (dictInsert k v l)).Nodup := by
  by_cases hm : k ∈ dictKeys l
  · rw [dictKeys_dictInsert_mem k v l hm]
    exact h
  · rw [dictKeys_dictInsert_notmem k v l hm]
    simp [List.nodup_append, h, hm]

/-- Lookup succeeds exactly on present keys. -/
theorem pyLookup_isSome_iff_mem (l : List (String × PyVal)) (k : String) :
    (pyLookup l k).isSome ↔ k ∈ dictKeys l := by
  induction l with
  | nil => simp [pyLookup, dictKeys]
  | cons p rest ih =>
    obtain ⟨k', v'⟩ := p
    rw [dictKeys_cons]
    by_cases hk : k' = k
    · subst hk
      simp [pyLookup]
    · simp only [pyLookup, if_neg hk, List.mem_cons]
      rw [ih]
      constructor
      · exact Or.inr
      · rintro (h | h)
        · exact absurd h.symm hk
        · exact h

/-- A candidate with known parse and check results evaluates to them. -/
theorem fileVal_of (cf : ConfigFile) (v : PyVal) (b : Bool)
    (hp : cf.parse = .ok v) (hr : hasRequired v = .ok b) :
    fileVal cf = some (v, b) := by
  simp [fileVal, hp, hr]

/-- On evaluable candidates the scan loop is the pure fold. -/
theorem scanFiles_eq_scanPure (files : List ConfigFile) :
    ∀ regs, scanOk files → scanFiles files regs = .ok (scanPure files regs) := by
  induction files with
  | nil => intro regs _; rfl
  | cons cf rest ih =>
    intro regs h
    obtain ⟨v, b, hp, hr⟩ := fileVal_eq cf (h cf (List.mem_cons_self _ _))
    have hfv := fileVal_of cf v b hp hr
    have hrest : scanOk rest := fun cf' h' => h cf' (List.mem_cons_of_mem _ h')
    simp only [scanFiles, hp, hr]
    have hsp : scanPure (cf :: rest) regs = scanPure rest (scanStep regs cf) := rfl
    rw [hsp]
    cases b with
    | true =>
      have : scanStep regs cf = dictInsert cf.stem v regs := by simp [scanStep, hfv]
      rw [this] at *
      simpa using ih _ hrest
    | false =>
      have : scanStep regs cf = regs := by simp [scanStep, hfv]
      rw [this]
      simpa using ih _ hrest

/-- A scan that returned a registry had only evaluable candidates. -/
theorem scanFiles_ok_scanOk (files : List ConfigFile) :
    ∀ regs r, scanFiles files regs = .ok r → scanOk files := by
  induction files with
  | nil => intro _ _ _ cf hcf; exact absurd hcf (List.not_mem_nil cf)
  | cons cf rest ih =>
    intro regs r h
    simp only [scanFiles] at h
    split at h
    next e hp => simp at h
    next v hp =>
      split at h
      next e hr => simp at h
      next b hr =>
        intro cf' hcf'
        rcases List.mem_cons.mp hcf' with rfl | hm
        · simp [fileVal, hp, hr]
        · exact ih _ _ h cf' hm

/-- Folding the last-value step from any accumulator. -/
theorem foldl_lastValStep_optOr (k : String) (files : List ConfigFile) :
    ∀ acc, files.foldl (lastValStep k) acc = optOr (lastVal k files) acc := by
  induction files with
  | nil => intro acc; rfl
  | cons cf rest ih =>
    intro acc
    have hstep : ∀ a, lastValStep k a cf = optOr (lastValStep k none cf) a := by
      intro a
      unfold lastValStep
      split
      · split <;> rfl
      · rfl
    have h1 : (cf :: rest).foldl (lastValStep k) acc =
        rest.foldl (lastValStep k) (lastValStep k acc cf) := rfl
    have h2 : lastVal k (cf :: rest) = optOr (lastVal k rest) (lastValStep k none cf) := by
      show rest.foldl (lastValStep k) (lastValStep k none cf) = _
      rw [ih]
    rw [h1, ih, h2, optOr_assoc, ← hstep]

/-- Lookup after one scan step. -/
theorem pyLookup_scanStep (regs : List (String × PyVal)) (cf : ConfigFile) (k : String) :
    pyLookup (scanStep regs cf) k = optOr (lastValStep k none cf) (pyLookup regs k) := by
  unfold scanStep lastValStep
  split
  next v hfv =>
    rw [pyLookup_dictInsert]
    by_cases hs : cf.stem = k
    · rw [if_pos hs, if_pos hs]
      rfl
    · rw [if_neg hs, if_neg hs]
      rfl
  next hfv => rfl

/-- Lookup in the scanned registry: the last valid candidate wins,
otherwise the previous entry survives. -/
theorem pyLookup_scanPure (files : List ConfigFile) :
    ∀ regs k, pyLookup (scanPure files regs) k =
      optOr (lastVal k files) (pyLookup regs k) := by
  induction files with
  | nil => intro regs k; rfl
  | cons cf rest ih =>
    intro regs k
    have h1 : scanPure (cf :: rest) regs = scanPure rest (scanStep regs cf) := rfl
    have h2 : lastVal k (cf :: rest) = optOr (lastVal k rest) (lastValStep k none cf) := by
      show rest.foldl (lastValStep k) (lastValStep k none cf) = _
      rw [foldl_lastValStep_optOr]
    rw [h1, ih, pyLookup_scanStep, h2, optOr_assoc]

/-- When every valid stem is already a key, scanning keeps the key
sequence. -/
theorem dictKeys_scanPure (files : List ConfigFile) :
    ∀ regs, (∀ cf ∈ files, ∀ v, fileVal cf = some (v, true) → cf.stem ∈ dictKeys regs) →
      dictKeys (scanPure files regs) = dictKeys regs := by
  induction files with
  | nil => intro regs _; rfl
  | cons cf rest ih =>
    intro regs h
    have h1 : scanPure (cf :: rest) regs = scanPure rest (scanStep regs cf) := rfl
    have hkeys : dictKeys (scanStep regs cf) = dictKeys regs := by
      unfold scanStep
      split
      next v hfv => exact dictKeys_dictInsert_mem _ _ _ (h cf (List.mem_cons_self _ _) v hfv)
      next hfv => rfl
    rw [h1, ih _ (fun cf' h' v hv => by
      rw [hkeys]
      exact h cf' (List.mem_cons_of_mem _ h') v hv), hkeys]

/-- Scanning keeps dict keys duplicate-free. -/
theorem nodup_dictKeys_scanPure (files : List ConfigFile) :
    ∀ regs, (dictKeys regs).Nodup → (dictKeys (scanPure files regs)).Nodup := by
  induction files with
  | nil => intro regs h; exact h
  | cons cf rest ih =>
    intro regs h
    have h1 : scanPure (cf :: rest) regs = scanPure rest (scanStep regs cf) := rfl
    rw [h1]
    refine ih _ ?_
    unfold scanStep
    split
    next v hfv => exact nodup_dictKeys_dictInsert _ _ _ h
    next hfv => exact h

/-- A valid candidate always leaves a last value for its stem. -/
theorem lastVal_isSome_of_mem (files : List ConfigFile) (cf : ConfigFile) (v : PyVal)
    (hmem : cf ∈ files) (hfv : fileVal cf = some (v, true)) :
    (lastVal cf.stem files).isSome := by
  induction files with
  | nil => exact absurd hmem (List.not_mem_nil cf)
  | cons cf' rest ih =>
    have h2 : lastVal cf.stem (cf' :: rest) =
        optOr (lastVal cf.stem rest) (lastValStep cf.stem none cf') := by
      show rest.foldl (lastValStep cf.stem) (lastValStep cf.stem none cf') = _
      rw [foldl_lastValStep_optOr]
    rw [h2]
    rcases List.mem_cons.mp hmem with rfl | hm
    · have hstep : lastValStep cf.stem none cf = some v := by
        simp [lastValStep, hfv]
      rw [hstep]
      cases lastVal cf.stem rest <;> simp [optOr]
    · have := ih hm
      cases hl : lastVal cf.stem rest
      · rw [hl] at this; simp at this
      · simp [optOr]

/-- With duplicate-free keys, lookup is invariant under permutation. -/
theorem pyLookup_perm (l l' : List (String × PyVal)) (h : l.Perm l')
    (hnd : (dictKeys l).Nodup) (k : String) : pyLookup l k = pyLookup l' k := by
  induction h with
  | nil => rfl
  | cons p h ih =>
    obtain ⟨k', v'⟩ := p
    simp only [pyLookup]
    by_cases hk : k' = k
    · rw [if_pos hk, if_pos hk]
    · rw [if_neg hk, if_neg hk]
      rw [dictKeys_cons] at hnd
      exact ih hnd.of_cons
  | swap p q l =>
    obtain ⟨k₁, v₁⟩ := p
    obtain ⟨k₂, v₂⟩ := q
    by_cases h1 : k₁ = k <;> by_cases h2 : k₂ = k
    · exfalso
      rw [dictKeys_cons, dictKeys_cons] at hnd
      have hne : k₂ ∉ k₁ :: dictKeys l := (List.nodup_cons.mp hnd).1
      exact hne (by rw [h2, ← h1]; exact List.mem_cons_self _ _)
    · simp [pyLookup, h1, h2]
    · simp [pyLookup, h1, h2]
    · simp [pyLookup, h1, h2]
  | trans h1 h2 ih1 ih2 =>
    rw [ih1 hnd, ih2 ?_]
    have hp := h1.map (Prod.fst (α := String) (β := PyVal))
    exact hp.nodup_iff.mp hnd

/-- Two dicts with duplicate-free keys, the same key sequence and the
same lookups are equal. -/
theorem assoc_ext (l₁ : List (String × PyVal)) :
    ∀ l₂, (dictKeys l₁).Nodup → dictKeys l₁ = dictKeys l₂ →
      (∀ k, pyLookup l₁ k = pyLookup l₂ k) → l₁ = l₂ := by
  induction l₁ with
  | nil =>
    intro l₂ _ hk _
    cases l₂ with
    | nil => rfl
    | cons q rest₂ => exact absurd hk (by simp [dictKeys])
  | cons p rest ih =>
    intro l₂ hnd hk hl
    obtain ⟨k, v⟩ := p
    cases l₂ with
    | nil => exact absurd hk (by simp [dictKeys])
    | cons q rest₂ =>
      obtain ⟨k₂, v₂⟩ := q
      rw [dictKeys_cons, dictKeys_cons] at hk
      obtain ⟨rfl, hkr⟩ : k = k₂ ∧ dictKeys rest = dictKeys rest₂ := by
        exact ⟨List.head_eq_of_cons_eq hk, List.tail_eq_of_cons_eq hk⟩
      have hv : v = v₂ := by
        have := hl k
        simp [pyLookup] at this
        exact this
      rw [dictKeys_cons] at hnd
      have hnotin : k ∉ dictKeys rest := (List.nodup_cons.mp hnd).1
      have hrest : rest = rest₂ := by
        refine ih rest₂ (List.nodup_cons.mp hnd).2 hkr (fun k' => ?_)
        by_cases hkk : k = k'
        · subst hkk
          have e1 : pyLookup rest k = none := by
            cases he : pyLookup rest k
            · rfl
            · exact absurd ((pyLookup_isSome_iff_mem rest k).mp (by simp [he])) hnotin
          have e2 : pyLookup rest₂ k = none := by
            cases he : pyLookup rest₂ k
            · rfl
            · refine absurd ((pyLookup_isSome_iff_mem rest₂ k).mp (by simp [he])) ?_
              rw [← hkr]
              exact hnotin
          rw [e1, e2]
        · have := hl k'
          simp only [pyLookup, if_neg hkk] at this
          exact this
      rw [hv, hrest]

/-- C3 (counterexample).  The scan loop never clears _MODEL_CONFIGS: an
entry whose config file no longer exists in any current source (here
the sources are entirely empty) survives a rescan, so the registry
after rescan is not exactly the set of valid entries found in the
current sources. -/
theorem rescan_retains_stale_entry :
    rescan_model_configs
        { defaultDir := [], extraPaths := [], configs := [("old-model", validCfgVal)] } =
      .ok { defaultDir := [], extraPaths := [],
            configs := [("old-model", validCfgVal)] } := rfl

/-- C3 (amended).  Rescan merges rather than re-derives: every key
already present survives, every valid candidate's stem is added, and a
second rescan with no filesystem change returns the same state
unchanged (idempotence). -/
theorem rescan_idempotent_and_merging (st st' : FactoryState)
    (hwf : (dictKeys st.configs).Nodup)
    (h : rescan_model_configs st = .ok st') :
    rescan_model_configs st' = .ok st' ∧
    (∀ k, k ∈ dictKeys st.configs → k ∈ dictKeys st'.configs) ∧
    (∀ cf ∈ (sources st).flatten, ∀ v, fileVal cf = some (v, true) →
      cf.stem ∈ dictKeys st'.configs) := by
  unfold rescan_model_configs at h
  split at h
  next e heq => simp at h
  next merged heq =>
    obtain rfl : { st with configs := List.insertionSort entryLe merged } = st' :=
      Except.ok.inj h
    have hok : scanOk (sources st).flatten := scanFiles_ok_scanOk _ _ _ heq
    have hpure : merged = scanPure (sources st).flatten st.configs := by
      have h2 := scanFiles_eq_scanPure (sources st).flatten st.configs hok
      rw [heq] at h2
      exact Except.ok.inj h2
    have hnodupM : (dictKeys merged).Nodup := by
      rw [hpure]
      exact nodup_dictKeys_scanPure _ _ hwf
    have hperm : (List.insertionSort entryLe merged).Perm merged :=
      List.perm_insertionSort entryLe merged
    have hnodupS : (dictKeys (List.insertionSort entryLe merged)).Nodup :=
      ((hperm.map (Prod.fst (α := String) (β := PyVal))).nodup_iff).mpr hnodupM
    have hlook : ∀ k, pyLookup (List.insertionSort entryLe merged) k =
        optOr (lastVal k (sources st).flatten) (pyLookup st.configs k) := by
      intro k
      rw [pyLookup_perm _ _ hperm hnodupS k, hpure, pyLookup_scanPure]
    have hnew : ∀ cf ∈ (sources st).flatten, ∀ v, fileVal cf = some (v, true) →
        cf.stem ∈ dictKeys (List.insertionSort entryLe merged) := by
      intro cf hm v hfv
      refine (pyLookup_isSome_iff_mem _ _).mp ?_
      rw [hlook]
      have hsome := lastVal_isSome_of_mem _ cf v hm hfv
      cases hl : lastVal cf.stem (sources st).flatten
      · rw [hl] at hsome
        simp at hsome
      · simp [optOr]
    have hold : ∀ k, k ∈ dictKeys st.configs →
        k ∈ dictKeys (List.insertionSort entryLe merged) := by
      intro k hk
      refine (pyLookup_isSome_iff_mem _ _).mp ?_
      rw [hlook]
      have h1 : (pyLookup st.configs k).isSome := (pyLookup_isSome_iff_mem _ _).mpr hk
      cases hl : lastVal k (sources st).flatten
      · simpa [optOr] using h1
      · simp [optOr]
    refine ⟨?_, hold, hnew⟩
    have hsrc : (sources { st with configs := List.insertionSort entryLe merged }).flatten =
        (sources st).flatten := rfl
    have hfix : scanPure (sources st).flatten (List.insertionSort entryLe merged) =
        List.insertionSort entryLe merged := by
      refine assoc_ext _ _ ?_ ?_ ?_
      · rw [dictKeys_scanPure _ _ hnew]
        exact hnodupS
      · exact dictKeys_scanPure _ _ hnew
      · intro k
        rw [pyLookup_scanPure, hlook, optOr_absorb]
    have hsorted : (List.insertionSort entryLe merged).Sorted entryLe :=
      List.sorted_insertionSort entryLe merged
    unfold rescan_model_configs
    rw [hsrc, scanFiles_eq_scanPure _ _ hok, hfix]
    simp [hsorted.insertionSort_eq]

/-- Factory state whose single source holds one valid document and
whose registry already reflects it (the result of a first rescan). -/
def mState : FactoryState :=
  { defaultDir := [⟨"m", .ok validCfgVal⟩], extraPaths := [],
    configs := [("m", validCfgVal)] }

/-- Witness for rescan_idempotent_and_merging: rescanning the state a
first rescan produced returns it unchanged. -/
theorem rescan_idempotent_and_merging_witness :
    rescan_model_configs mState = .ok mState :=
  (rescan_idempotent_and_merging
    { defaultDir := [⟨"m", .ok validCfgVal⟩], extraPaths := [], configs := [] }
    mState (by decide) rfl).1

end OpenClip
